import Mathlib

/-!
Verification of the create-template handler
(`backendSrc/apps/posts/api/createTemplates.ts` and its simpler variant).

The development embeds the pipeline of the handler: structural validation
of the request body, the recursive `sanitize` pass that drops the
`elementScript` key, JSON serialization, the textual scrub of the literal
`<script>` / `</script>` markers, the 900 KiB size gate, and the
insert / read-back sequence with its duplicate-id classification.

JSON values are modelled by the nested inductive `Json`; JS strings are
modelled as Lean `String` / `List Char`; the global regex replacement
`.replace(/<script>/g, ...)` is modelled by `replaceAll`, a leftmost,
non-overlapping, global replacement on character lists.
-/

/-- A JSON value as produced by `JSON.parse` / consumed by `JSON.stringify`.
Objects are ordered association lists with string keys; numbers are
restricted to integers (no claim depends on float formatting). -/
inductive Json where
  | str (s : String)
  | num (n : Int)
  | bool (b : Bool)
  | null
  | arr (items : List Json)
  | obj (fields : List (String × Json))

mutual

/-- The recursive sanitizer of `createTemplates.ts` (lines 55-69): arrays are
sanitized element-wise, objects drop every pair whose key is the literal
`elementScript` and recurse into the remaining values, all other values
pass through unchanged. -/
def sanitize : Json → Json
  | .arr items => .arr (sanitizeItems items)
  | .obj fields => .obj (sanitizeFields fields)
  | v => v

/-- `value.map(sanitize)` on an array's element list. -/
def sanitizeItems : List Json → List Json
  | [] => []
  | v :: rest => sanitize v :: sanitizeItems rest

/-- The `for (const [k, v] of Object.entries(input))` loop of `sanitize`:
skip the pair when the key is `elementScript`, otherwise keep the key and
recurse into the value. -/
def sanitizeFields : List (String × Json) → List (String × Json)
  | [] => []
  | (k, v) :: rest =>
    if k = "elementScript" then sanitizeFields rest
    else (k, sanitize v) :: sanitizeFields rest

end

/-- JSON string escaping of a single character, as performed by
`JSON.stringify` on string values. -/
def escChar (c : Char) : List Char :=
  if c = '"' then ['\\', '"']
  else if c = '\\' then ['\\', '\\']
  else if c = '\n' then ['\\', 'n']
  else if c = '\r' then ['\\', 'r']
  else if c = '\t' then ['\\', 't']
  else if c = '\x08' then ['\\', 'b']
  else if c = '\x0c' then ['\\', 'f']
  else if c.toNat < 32 then
    ['\\', 'u', '0', '0', Nat.digitChar (c.toNat / 16), Nat.digitChar (c.toNat % 16)]
  else [c]

/-- JSON string escaping of a character sequence. -/
def escape (l : List Char) : List Char := l.flatMap escChar

/-- The character U+007B (opening curly bracket). -/
def lbrace : Char := Char.ofNat 123

/-- The character U+007D (closing curly bracket). -/
def rbrace : Char := Char.ofNat 125

mutual

/-- `JSON.stringify` on the `Json` model, producing the serialized text as
a character list. -/
def stringify : Json → List Char
  | .str s => '"' :: escape s.toList ++ ['"']
  | .num n => (toString n).toList
  | .bool b => if b then "true".toList else "false".toList
  | .null => "null".toList
  | .arr [] => ['[', ']']
  | .arr (v :: rest) => '[' :: stringify v ++ stringifyItems rest ++ [']']
  | .obj [] => [lbrace, rbrace]
  | .obj (f :: rest) => lbrace :: stringifyField f ++ stringifyFields rest ++ [rbrace]

/-- Comma-separated tail of an array serialization. -/
def stringifyItems : List Json → List Char
  | [] => []
  | v :: rest => ',' :: stringify v ++ stringifyItems rest

/-- Serialization of a single `"key":value` member. -/
def stringifyField : String × Json → List Char
  | (k, v) => '"' :: escape k.toList ++ ['"', ':'] ++ stringify v

/-- Comma-separated tail of an object serialization. -/
def stringifyFields : List (String × Json) → List Char
  | [] => []
  | f :: rest => ',' :: stringifyField f ++ stringifyFields rest

end

/-- Fuel-indexed global replacement: scan left to right, replace each
leftmost occurrence of `pat` by `repl` and continue after it. The fuel
only bounds the recursion; `replaceAll` supplies enough fuel for the scan
to finish (at least one character is consumed per step). -/
def replaceF (pat repl : List Char) : Nat → List Char → List Char
  | _, [] => []
  | 0, l => l
  | fuel + 1, c :: cs =>
    if pat.isPrefixOf (c :: cs) ∧ pat ≠ [] then
      repl ++ replaceF pat repl fuel ((c :: cs).drop pat.length)
    else
      c :: replaceF pat repl fuel cs

/-- Global, leftmost, non-overlapping replacement of `pat` by `repl`, the
semantics of `text.replace(/pat/g, repl)` for a literal pattern. -/
def replaceAll (pat repl l : List Char) : List Char := replaceF pat repl l.length l

/-- The literal marker `<script>`. -/
def scriptOpen : List Char := "<script>".toList

/-- The literal marker `</script>`. -/
def scriptClose : List Char := "</script>".toList

/-- The replacement text `&lt;script&gt;`. -/
def escOpen : List Char := "&lt;script&gt;".toList

/-- The replacement text `&lt;/script&gt;`. -/
def escClose : List Char := "&lt;/script&gt;".toList

/-- The two chained textual replacements of `createTemplates.ts`
lines 73-75: first `<script>` to `&lt;script&gt;`, then `</script>` to
`&lt;/script&gt;`. -/
def scrub (l : List Char) : List Char :=
  replaceAll scriptClose escClose (replaceAll scriptOpen escOpen l)

/-- `contentForDb` (lines 71-75): sanitize the content, serialize it, and
scrub the serialized text. This is the exact text stored in the table. -/
def contentForDb (content : Json) : List Char := scrub (stringify (sanitize content))

/-- UTF-8 byte length of a character sequence, the value of
`new Blob([text]).size`. -/
def utf8Len (l : List Char) : Nat := (l.map Char.utf8Size).sum

/-- The size ceiling of line 80: `900 * 1024` bytes. -/
def maxBytes : Nat := 900 * 1024

/-- ASCII hexadecimal digit test (either case). -/
def isHexDigit (c : Char) : Bool :=
  decide ('0' ≤ c ∧ c ≤ '9') || decide ('a' ≤ c ∧ c ≤ 'f') || decide ('A' ≤ c ∧ c ≤ 'F')

/-- Canonical textual UUID shape required by `z.string().uuid()`: five
hyphen-separated groups of 8, 4, 4, 4 and 12 hexadecimal digits. -/
def isUuid (s : String) : Bool :=
  let groups := s.toList.splitOn '-'
  groups.map List.length == [8, 4, 4, 4, 12] && groups.all (fun g => g.all isHexDigit)

/-- First-match field lookup in a parsed JSON object (objects produced by
`JSON.parse` carry no duplicate keys). -/
def lookupField : List (String × Json) → String → Option Json
  | [], _ => none
  | (k, v) :: rest, key => if k = key then some v else lookupField rest key

/-- The request body after `RequestSchema.parse`: an optional UUID `id`
and a `content` value. -/
structure ParsedRequest where
  id : Option String
  content : Json

/-- Validation of the optional `id` field: absent is fine, a string must
satisfy the UUID shape, anything else is a type error. -/
def validateId : Option Json → Except (List String) (Option String)
  | none => .ok none
  | some (.str s) => if isUuid s then .ok (some s) else .error ["id: Invalid uuid"]
  | some _ => .error ["id: Expected string, received other type"]

/-- `z.union([z.string(), z.record(z.unknown()), z.array(z.unknown())])`:
the content must be a string, an object, or an array. -/
def isContentOk : Json → Bool
  | .str _ => true
  | .obj _ => true
  | .arr _ => true
  | _ => false

/-- `RequestSchema.parse` (lines 7-10): the body must be an object; `id`
is optional but must be a UUID string when present; `content` is required
and must be a string, an object, or an array. All field-level issues are
collected into the error list. -/
def validate : Json → Except (List String) ParsedRequest
  | .obj fields =>
    match validateId (lookupField fields "id"), lookupField fields "content" with
    | .ok oid, some c =>
      if isContentOk c then .ok ⟨oid, c⟩ else .error ["content: Invalid input"]
    | .ok _, none => .error ["content: Required"]
    | .error es, some c =>
      if isContentOk c then .error es else .error (es ++ ["content: Invalid input"])
    | .error es, none => .error (es ++ ["content: Required"])
  | _ => .error ["body: Expected object, received other type"]

/-- ASCII lower-casing of one character, for the case-insensitive error
message match. -/
def lowerAscii (c : Char) : Char :=
  if 'A' ≤ c ∧ c ≤ 'Z' then Char.ofNat (c.toNat + 32) else c

/-- The pattern of the duplicate-id test of line 95. -/
def uniquePattern : List Char := "unique constraint failed".toList

/-- `/unique constraint failed|UNIQUE constraint failed/i.test(message)`:
a case-insensitive substring match of the uniqueness-violation text. -/
def isUniqueViolation (msg : String) : Bool :=
  decide (uniquePattern <:+: msg.toList.map lowerAscii)

/-- Result of the single insert call made by the handler. -/
inductive InsertOutcome where
  | ok
  | fail (msg : String)
deriving DecidableEq

/-- Body of an HTTP response produced by the handler: a stored row, an
`{error, details}` object, or a validation error with its issue list. -/
inductive RespBody where
  | row (id : String) (content : List Char)
  | err (error : String) (details : String)
  | errV (error : String) (details : List String)
deriving DecidableEq

/-- An HTTP response: status code and body. -/
structure Response where
  status : Nat
  body : RespBody
deriving DecidableEq

/-- Observable outcome of one handler run: the response and the number of
insert calls issued to the store. -/
structure HandleTrace where
  response : Response
  inserts : Nat
deriving DecidableEq

/-- The size-gated, duplicate-aware handler (`createTemplates.ts`
lines 47-128). `ins` is the store's insert call (keyed by resolved id and
stored text), `readBack` the post-insert point lookup, `genId` the value
`crypto.randomUUID()` would return for this request. -/
def handle (ins : String → List Char → InsertOutcome)
    (readBack : String → List Char → Option (String × List Char))
    (genId : String) (body : Json) : HandleTrace :=
  match validate body with
  | .error errs => ⟨⟨400, .errV "Validation failed" errs⟩, 0⟩
  | .ok req =>
    let contentForStorage := contentForDb req.content
    let templateId := req.id.getD genId
    if utf8Len contentForStorage > maxBytes then
      ⟨⟨413, .err "Payload too large" "content exceeds size limit"⟩, 0⟩
    else
      match ins templateId contentForStorage with
      | .fail msg =>
        if isUniqueViolation msg then
          ⟨⟨409, .err "Duplicate id" "Template with this id already exists"⟩, 1⟩
        else
          ⟨⟨500, .err "Internal server error" msg⟩, 1⟩
      | .ok =>
        match readBack templateId contentForStorage with
        | none => ⟨⟨500, .err "Internal server error" "Failed to fetch inserted template"⟩, 1⟩
        | some (rid, rcontent) => ⟨⟨201, .row rid rcontent⟩, 1⟩

/-- The simpler ORM-insert variant (the unnamed source file): identical
pipeline without the size gate and without the duplicate-id
classification; every insert failure becomes a generic 500. -/
def handleSimple (ins : String → List Char → InsertOutcome)
    (readBack : String → List Char → Option (String × List Char))
    (genId : String) (body : Json) : HandleTrace :=
  match validate body with
  | .error errs => ⟨⟨400, .errV "Validation failed" errs⟩, 0⟩
  | .ok req =>
    let contentForStorage := contentForDb req.content
    let templateId := req.id.getD genId
    match ins templateId contentForStorage with
    | .fail msg => ⟨⟨500, .err "Internal server error" msg⟩, 1⟩
    | .ok =>
      match readBack templateId contentForStorage with
      | none => ⟨⟨500, .err "Internal server error" "Failed to fetch inserted template"⟩, 1⟩
      | some (rid, rcontent) => ⟨⟨201, .row rid rcontent⟩, 1⟩

/-- The templates table: rows of (id, stored content text), with the id
column carrying a uniqueness constraint. -/
abbrev Store := List (String × List Char)

/-- Insert against the concrete store: a duplicate id surfaces the SQLite
uniqueness-violation message, otherwise the insert succeeds. -/
def storeIns (db : Store) : String → List Char → InsertOutcome := fun i _ =>
  if db.any (fun r => r.1 == i) then .fail "UNIQUE constraint failed: templates_table.id"
  else .ok

/-- Point lookup after a successful insert of `(i, c)` into `db`. -/
def storeRb (db : Store) : String → List Char → Option (String × List Char) := fun i c =>
  ((db ++ [(i, c)]).find? (fun r => r.1 == i))

/-- One run of the handler against the concrete store `db`. -/
def runCreate (db : Store) (genId : String) (body : Json) : HandleTrace :=
  handle (storeIns db) (storeRb db) genId body

mutual

/-- No object key anywhere in the value equals `elementScript`. -/
def noBanned : Json → Bool
  | .arr items => noBannedItems items
  | .obj fields => noBannedFields fields
  | _ => true

/-- `noBanned` on every element of a list. -/
def noBannedItems : List Json → Bool
  | [] => true
  | v :: rest => noBanned v && noBannedItems rest

/-- Every key differs from `elementScript` and every value satisfies
`noBanned`. -/
def noBannedFields : List (String × Json) → Bool
  | [] => true
  | (k, v) :: rest => (k != "elementScript") && noBanned v && noBannedFields rest

end

/-! ### Basic facts about the fuel-indexed replacement scan -/

theorem replaceF_nilList (pat repl : List Char) (fuel : Nat) :
    replaceF pat repl fuel [] = [] := by
  cases fuel <;> rfl

theorem replaceF_zero (pat repl l : List Char) : replaceF pat repl 0 l = l := by
  cases l <;> rfl

theorem replaceF_succ_pos {pat : List Char} {c : Char} {cs : List Char}
    (repl : List Char) (fuel : Nat)
    (h1 : pat.isPrefixOf (c :: cs)) (h2 : pat ≠ []) :
    replaceF pat repl (fuel + 1) (c :: cs)
      = repl ++ replaceF pat repl fuel ((c :: cs).drop pat.length) := by
  simp only [replaceF]
  rw [if_pos ⟨h1, h2⟩]

theorem replaceF_succ_neg {pat : List Char} {c : Char} {cs : List Char}
    (repl : List Char) (fuel : Nat)
    (h : ¬(pat.isPrefixOf (c :: cs) ∧ pat ≠ [])) :
    replaceF pat repl (fuel + 1) (c :: cs) = c :: replaceF pat repl fuel cs := by
  simp only [replaceF]
  rw [if_neg h]

/-- Splitting an occurrence inside a concatenation: the occurrence lies in
the left part, lies in the right part, or spans the border, contributing a
nonempty suffix of the left part followed by a nonempty prefix of the
right part. -/
theorem infix_append_cases {α : Type} {q a b : List α} (h : q <:+: a ++ b) :
    q <:+: a ∨ q <:+: b ∨
      ∃ e f, e ≠ [] ∧ f ≠ [] ∧ e <:+ a ∧ f <+: b ∧ q = e ++ f := by
  obtain ⟨s, t, hst⟩ := h
  rw [List.append_assoc] at hst
  rcases List.append_eq_append_iff.mp hst with ⟨a', ha, hx⟩ | ⟨c', _, hb⟩
  · rcases List.append_eq_append_iff.mp hx with ⟨x, hax, _⟩ | ⟨y, hq, hby⟩
    · exact Or.inl ⟨s, x, by rw [ha, hax, List.append_assoc]⟩
    · rcases eq_or_ne a' [] with rfl | hane
      · refine Or.inr (Or.inl (List.IsPrefix.isInfix ?_))
        exact ⟨t, by rw [List.nil_append] at hq; rw [hq, hby]⟩
      · rcases eq_or_ne y [] with rfl | hyne
        · rw [List.append_nil] at hq
          exact Or.inl (List.IsSuffix.isInfix ⟨s, by rw [ha, hq]⟩)
        · exact Or.inr (Or.inr ⟨a', y, hane, hyne, ⟨s, ha.symm⟩, ⟨t, hby.symm⟩, hq⟩)
  · refine Or.inr (Or.inl ⟨c', t, ?_⟩)
    rw [hb, List.append_assoc]

/-- If no nonempty suffix of `q` is prefix-comparable with `repl`, prefixes
of the output of the scan that are suffixes of `q` pull back to prefixes
of the input. -/
theorem prefixes_reflect {pat repl q : List Char}
    (hfree : ∀ e : List Char, e ≠ [] → e <:+ q → ¬ e <+: repl ∧ ¬ repl <+: e) :
    ∀ fuel l p, p <:+ q → p <+: replaceF pat repl fuel l → p <+: l := by
  intro fuel
  induction fuel with
  | zero => intro l p _ hp; rwa [replaceF_zero] at hp
  | succ n ih =>
    intro l p hsub hp
    cases l with
    | nil => rwa [replaceF_nilList] at hp
    | cons c cs =>
      by_cases hcond : pat.isPrefixOf (c :: cs) ∧ pat ≠ []
      · rw [replaceF_succ_pos repl n hcond.1 hcond.2] at hp
        cases p with
        | nil => exact List.nil_prefix
        | cons p0 ps =>
          exfalso
          have hrepl : repl <+: repl ++ replaceF pat repl n ((c :: cs).drop pat.length) :=
            List.prefix_append ..
          have hne : (p0 :: ps) ≠ [] := List.cons_ne_nil _ _
          rcases Nat.le_total (p0 :: ps).length repl.length with hle | hle
          · exact (hfree _ hne hsub).1 (List.prefix_of_prefix_length_le hp hrepl hle)
          · exact (hfree _ hne hsub).2 (List.prefix_of_prefix_length_le hrepl hp hle)
      · rw [replaceF_succ_neg repl n hcond] at hp
        cases p with
        | nil => exact List.nil_prefix
        | cons p0 ps =>
          rcases List.cons_prefix_cons.mp hp with ⟨rfl, hps⟩
          have hsub' : ps <:+ q := (List.suffix_cons p0 ps).trans hsub
          exact List.cons_prefix_cons.mpr ⟨rfl, ih cs ps hsub' hps⟩

/-- Under the same overlap-freeness condition, prefixes of the input that
are suffixes of `q` survive the scan. -/
theorem prefixes_preserved {pat repl q : List Char}
    (hfree : ∀ e : List Char, e ≠ [] → e <:+ q → ¬ e <+: pat ∧ ¬ pat <+: e) :
    ∀ fuel l p, p <:+ q → p <+: l → p <+: replaceF pat repl fuel l := by
  intro fuel
  induction fuel with
  | zero => intro l p _ hp; rwa [replaceF_zero]
  | succ n ih =>
    intro l p hsub hp
    cases l with
    | nil => rwa [replaceF_nilList]
    | cons c cs =>
      by_cases hcond : pat.isPrefixOf (c :: cs) ∧ pat ≠ []
      · rw [replaceF_succ_pos repl n hcond.1 hcond.2]
        cases p with
        | nil => exact List.nil_prefix
        | cons p0 ps =>
          exfalso
          have hpat : pat <+: c :: cs := List.isPrefixOf_iff_prefix.mp hcond.1
          have hne : (p0 :: ps) ≠ [] := List.cons_ne_nil _ _
          rcases Nat.le_total (p0 :: ps).length pat.length with hle | hle
          · exact (hfree _ hne hsub).1 (List.prefix_of_prefix_length_le hp hpat hle)
          · exact (hfree _ hne hsub).2 (List.prefix_of_prefix_length_le hpat hp hle)
      · rw [replaceF_succ_neg repl n hcond]
        cases p with
        | nil => exact List.nil_prefix
        | cons p0 ps =>
          rcases List.cons_prefix_cons.mp hp with ⟨rfl, hps⟩
          have hsub' : ps <:+ q := (List.suffix_cons p0 ps).trans hsub
          exact List.cons_prefix_cons.mpr ⟨rfl, ih cs ps hsub' hps⟩

/-- A text without any occurrence of the pattern is returned unchanged. -/
theorem replaceF_eq_self {pat repl : List Char} :
    ∀ fuel l, ¬ pat <:+: l → replaceF pat repl fuel l = l := by
  intro fuel
  induction fuel with
  | zero => intro l _; exact replaceF_zero ..
  | succ n ih =>
    intro l h
    cases l with
    | nil => exact replaceF_nilList ..
    | cons c cs =>
      have hcond : ¬ (pat.isPrefixOf (c :: cs) ∧ pat ≠ []) := by
        rintro ⟨h1, _⟩
        exact h (List.IsPrefix.isInfix (List.isPrefixOf_iff_prefix.mp h1))
      rw [replaceF_succ_neg repl n hcond,
        ih cs (fun hin => h (List.infix_cons hin))]

/-- An occurrence inside the right part of a concatenation is an
occurrence in the whole. -/
theorem infix_append_left {α : Type} (a : List α) {q b : List α} (h : q <:+: b) :
    q <:+: a ++ b := by
  obtain ⟨s, t, hst⟩ := h
  exact ⟨a ++ s, t, by rw [← hst]; simp [List.append_assoc]⟩

/-- If the pattern occurs in the text and the fuel covers the text, the
replacement text occurs in the output. -/
theorem repl_appears {pat repl : List Char} (hpat : pat ≠ []) :
    ∀ fuel l, l.length ≤ fuel → pat <:+: l → repl <:+: replaceF pat repl fuel l := by
  intro fuel
  induction fuel with
  | zero =>
    intro l hlen hin
    have hl : l = [] := List.eq_nil_of_length_eq_zero (Nat.le_zero.mp hlen)
    subst hl
    exact absurd (List.infix_nil.mp hin) hpat
  | succ n ih =>
    intro l hlen hin
    cases l with
    | nil => exact absurd (List.infix_nil.mp hin) hpat
    | cons c cs =>
      by_cases hcond : pat.isPrefixOf (c :: cs) ∧ pat ≠ []
      · rw [replaceF_succ_pos repl n hcond.1 hcond.2]
        exact (List.prefix_append repl _).isInfix
      · rw [replaceF_succ_neg repl n hcond]
        have hnp : ¬ pat <+: (c :: cs) := fun hp =>
          hcond ⟨List.isPrefixOf_iff_prefix.mpr hp, hpat⟩
        rcases List.infix_cons_iff.mp hin with hpre | htail
        · exact absurd hpre hnp
        · have hlen' : cs.length ≤ n := by
            simp only [List.length_cons] at hlen; omega
          exact List.infix_cons (ih cs hlen' htail)

/-- Core elimination property: after replacing every occurrence, the
pattern occurs nowhere in the output, provided the pattern does not occur
in the replacement, no nonempty suffix of the replacement is a prefix of
the pattern, and no nonempty suffix of the pattern is prefix-comparable
with the replacement. -/
theorem pat_eliminated {pat repl : List Char} (hpat : pat ≠ [])
    (h1 : ¬ pat <:+: repl)
    (h2 : ∀ e, e ≠ [] → e <:+ repl → ¬ e <+: pat)
    (h3 : ∀ e, e ≠ [] → e <:+ pat → ¬ e <+: repl ∧ ¬ repl <+: e) :
    ∀ fuel l, l.length ≤ fuel → ¬ pat <:+: replaceF pat repl fuel l := by
  intro fuel
  induction fuel with
  | zero =>
    intro l hlen
    have hl : l = [] := List.eq_nil_of_length_eq_zero (Nat.le_zero.mp hlen)
    subst hl
    rw [replaceF_zero]
    exact fun hin => hpat (List.infix_nil.mp hin)
  | succ n ih =>
    intro l hlen
    cases l with
    | nil => rw [replaceF_nilList]; exact fun hin => hpat (List.infix_nil.mp hin)
    | cons c cs =>
      by_cases hcond : pat.isPrefixOf (c :: cs) ∧ pat ≠ []
      · rw [replaceF_succ_pos repl n hcond.1 hcond.2]
        intro hin
        have hdroplen : ((c :: cs).drop pat.length).length ≤ n := by
          have h0 : 0 < pat.length := List.length_pos.mpr hpat
          simp only [List.length_drop, List.length_cons]
          simp only [List.length_cons] at hlen
          omega
        rcases infix_append_cases hin with hrep | hrec | ⟨e, f, hene, _, hesuf, _, heq⟩
        · exact h1 hrep
        · exact ih _ hdroplen hrec
        · exact h2 e hene hesuf ⟨f, heq.symm⟩
      · rw [replaceF_succ_neg repl n hcond]
        intro hin
        rcases List.infix_cons_iff.mp hin with hpre | htail
        · cases pat with
          | nil => exact hpat rfl
          | cons p0 pt =>
            rcases List.cons_prefix_cons.mp hpre with ⟨rfl, hpt⟩
            have hptcs : pt <+: cs :=
              prefixes_reflect h3 n cs pt (List.suffix_cons p0 pt) hpt
            exact hcond
              ⟨List.isPrefixOf_iff_prefix.mpr (List.cons_prefix_cons.mpr ⟨rfl, hptcs⟩), hpat⟩
        · exact ih cs (by simp only [List.length_cons] at hlen; omega) htail

/-- Reflection: an occurrence of `q` in the output pulls back to an
occurrence in the input, provided `q` does not occur in the replacement,
no nonempty suffix of the replacement is a prefix of `q`, and no nonempty
suffix of `q` is prefix-comparable with the replacement. -/
theorem occurrence_reflect {pat repl q : List Char}
    (h1 : ¬ q <:+: repl)
    (h2 : ∀ e, e ≠ [] → e <:+ repl → ¬ e <+: q)
    (h3 : ∀ e, e ≠ [] → e <:+ q → ¬ e <+: repl ∧ ¬ repl <+: e) :
    ∀ fuel l, q <:+: replaceF pat repl fuel l → q <:+: l := by
  intro fuel
  induction fuel with
  | zero => intro l h; rwa [replaceF_zero] at h
  | succ n ih =>
    intro l h
    cases l with
    | nil => rwa [replaceF_nilList] at h
    | cons c cs =>
      by_cases hcond : pat.isPrefixOf (c :: cs) ∧ pat ≠ []
      · rw [replaceF_succ_pos repl n hcond.1 hcond.2] at h
        rcases infix_append_cases h with hrep | hrec | ⟨e, f, hene, _, hesuf, _, heq⟩
        · exact absurd hrep h1
        · exact (ih _ hrec).trans (List.drop_suffix _ _).isInfix
        · exact absurd ⟨f, heq.symm⟩ (h2 e hene hesuf)
      · rw [replaceF_succ_neg repl n hcond] at h
        rcases List.infix_cons_iff.mp h with hpre | htail
        · cases q with
          | nil => exact List.nil_infix
          | cons q0 qt =>
            rcases List.cons_prefix_cons.mp hpre with ⟨rfl, hqt⟩
            have hqtcs : qt <+: cs :=
              prefixes_reflect h3 n cs qt (List.suffix_cons q0 qt) hqt
            exact (List.cons_prefix_cons.mpr ⟨rfl, hqtcs⟩).isInfix
        · exact List.infix_cons (ih cs htail)

/-- Preservation: an occurrence of `q` in the input survives the
replacement, provided `q` does not occur in the pattern, no nonempty
suffix of the pattern is a prefix of `q`, and no nonempty suffix of `q`
is prefix-comparable with the pattern. -/
theorem occurrence_preserved {pat repl q : List Char}
    (hq1 : ¬ q <:+: pat)
    (hq2 : ∀ e, e ≠ [] → e <:+ pat → ¬ e <+: q)
    (hq3 : ∀ e, e ≠ [] → e <:+ q → ¬ e <+: pat ∧ ¬ pat <+: e) :
    ∀ fuel l, q <:+: l → q <:+: replaceF pat repl fuel l := by
  intro fuel
  induction fuel with
  | zero => intro l h; rwa [replaceF_zero]
  | succ n ih =>
    intro l h
    cases l with
    | nil => rwa [replaceF_nilList]
    | cons c cs =>
      by_cases hcond : pat.isPrefixOf (c :: cs) ∧ pat ≠ []
      · have hpatpre : pat <+: c :: cs := List.isPrefixOf_iff_prefix.mp hcond.1
        obtain ⟨d, hd⟩ := hpatpre
        have hdrop : (c :: cs).drop pat.length = d := by
          rw [← hd, List.drop_left]
        rw [replaceF_succ_pos repl n hcond.1 hcond.2, hdrop]
        rw [← hd] at h
        rcases infix_append_cases h with hpat' | hd' | ⟨e, f, hene, _, hesuf, _, heq⟩
        · exact absurd hpat' hq1
        · exact infix_append_left repl (ih d hd')
        · exact absurd ⟨f, heq.symm⟩ (hq2 e hene hesuf)
      · rcases List.infix_cons_iff.mp h with hpre | htail
        · exact (prefixes_preserved hq3 (n + 1) (c :: cs) q List.suffix_rfl hpre).isInfix
        · rw [replaceF_succ_neg repl n hcond]
          exact List.infix_cons (ih cs htail)

/-- Decidable bridge: a boolean scan over all suffix lengths certifies
that no nonempty suffix of `a` is a prefix of `b`. -/
theorem suffix_check {a b : List Char}
    (hchk : (List.range a.length).all (fun k => !((a.drop k).isPrefixOf b)) = true) :
    ∀ e, e ≠ [] → e <:+ a → ¬ e <+: b := by
  intro e hne hsuf hpre
  have hle : e.length ≤ a.length := hsuf.length_le
  have hpos : 0 < e.length := List.length_pos.mpr hne
  have hmem : a.length - e.length ∈ List.range a.length := List.mem_range.mpr (by omega)
  have hb := List.all_eq_true.mp hchk _ hmem
  rw [List.suffix_iff_eq_drop] at hsuf
  rw [← hsuf, Bool.not_eq_true'] at hb
  exact absurd (List.isPrefixOf_iff_prefix.mpr hpre) (by simp [hb])

/-- Decidable bridge: a boolean scan certifies that no nonempty suffix of
`a` is prefix-comparable with `b` in either direction. -/
theorem suffix_check2 {a b : List Char}
    (hchk : (List.range a.length).all
      (fun k => !((a.drop k).isPrefixOf b) && !(b.isPrefixOf (a.drop k))) = true) :
    ∀ e, e ≠ [] → e <:+ a → ¬ e <+: b ∧ ¬ b <+: e := by
  intro e hne hsuf
  have hle : e.length ≤ a.length := hsuf.length_le
  have hpos : 0 < e.length := List.length_pos.mpr hne
  have hmem : a.length - e.length ∈ List.range a.length := List.mem_range.mpr (by omega)
  have hb := List.all_eq_true.mp hchk _ hmem
  rw [List.suffix_iff_eq_drop] at hsuf
  rw [← hsuf, Bool.and_eq_true, Bool.not_eq_true', Bool.not_eq_true'] at hb
  constructor
  · intro hpre
    exact absurd (List.isPrefixOf_iff_prefix.mpr hpre) (by simp [hb.1])
  · intro hpre
    exact absurd (List.isPrefixOf_iff_prefix.mpr hpre) (by simp [hb.2])

/-- A pattern containing a character absent from the text cannot occur in
the text. -/
theorem not_infix_of_lacks {c : Char} {pat l : List Char} (hc : c ∈ pat) (h : c ∉ l) :
    ¬ pat <:+: l :=
  fun hin => h (hin.subset hc)

/-- A text with no occurrence of either marker passes the scrub
unchanged. -/
theorem scrub_eq_self {l : List Char}
    (h1 : ¬ scriptOpen <:+: l) (h2 : ¬ scriptClose <:+: l) : scrub l = l := by
  unfold scrub replaceAll
  rw [replaceF_eq_self _ _ h1, replaceF_eq_self _ _ h2]

/-- A text containing no `<` at all passes the scrub unchanged. -/
theorem scrub_eq_self_of_no_lt {l : List Char} (h : '<' ∉ l) : scrub l = l :=
  scrub_eq_self (not_infix_of_lacks (by decide) h) (not_infix_of_lacks (by decide) h)

/-- After the scrub, the text contains no occurrence of `<script>`. -/
theorem scrub_no_open (l : List Char) : ¬ scriptOpen <:+: scrub l := by
  intro h
  unfold scrub replaceAll at h
  have hr1 : ¬ scriptOpen <:+: escClose := by decide
  have hr2 : ∀ e, e ≠ [] → e <:+ escClose → ¬ e <+: scriptOpen :=
    suffix_check (by decide)
  have hr3 : ∀ e, e ≠ [] → e <:+ scriptOpen → ¬ e <+: escClose ∧ ¬ escClose <+: e :=
    suffix_check2 (by decide)
  have hmid := occurrence_reflect hr1 hr2 hr3 _ _ h
  have he1 : ¬ scriptOpen <:+: escOpen := by decide
  have he2 : ∀ e, e ≠ [] → e <:+ escOpen → ¬ e <+: scriptOpen :=
    suffix_check (by decide)
  have he3 : ∀ e, e ≠ [] → e <:+ scriptOpen → ¬ e <+: escOpen ∧ ¬ escOpen <+: e :=
    suffix_check2 (by decide)
  exact pat_eliminated (by decide) he1 he2 he3 l.length l le_rfl hmid

/-- After the scrub, the text contains no occurrence of `</script>`. -/
theorem scrub_no_close (l : List Char) : ¬ scriptClose <:+: scrub l := by
  intro h
  unfold scrub replaceAll at h
  have he1 : ¬ scriptClose <:+: escClose := by decide
  have he2 : ∀ e, e ≠ [] → e <:+ escClose → ¬ e <+: scriptClose :=
    suffix_check (by decide)
  have he3 : ∀ e, e ≠ [] → e <:+ scriptClose → ¬ e <+: escClose ∧ ¬ escClose <+: e :=
    suffix_check2 (by decide)
  exact pat_eliminated (by decide) he1 he2 he3 _ _ le_rfl h

/-- If `<script>` occurs in the text, its escaped form occurs after the
scrub. -/
theorem scrub_escOpen {l : List Char} (h : scriptOpen <:+: l) :
    escOpen <:+: scrub l := by
  unfold scrub replaceAll
  have hmid : escOpen <:+: replaceF scriptOpen escOpen l.length l :=
    repl_appears (by decide) l.length l le_rfl h
  have hq1 : ¬ escOpen <:+: scriptClose := by decide
  have hq2 : ∀ e, e ≠ [] → e <:+ scriptClose → ¬ e <+: escOpen :=
    suffix_check (by decide)
  have hq3 : ∀ e, e ≠ [] → e <:+ escOpen → ¬ e <+: scriptClose ∧ ¬ scriptClose <+: e :=
    suffix_check2 (by decide)
  exact occurrence_preserved hq1 hq2 hq3 _ _ hmid

/-- If `</script>` occurs in the text, its escaped form occurs after the
scrub. -/
theorem scrub_escClose {l : List Char} (h : scriptClose <:+: l) :
    escClose <:+: scrub l := by
  unfold scrub replaceAll
  have hq1 : ¬ scriptClose <:+: scriptOpen := by decide
  have hq2 : ∀ e, e ≠ [] → e <:+ scriptOpen → ¬ e <+: scriptClose :=
    suffix_check (by decide)
  have hq3 : ∀ e, e ≠ [] → e <:+ scriptClose → ¬ e <+: scriptOpen ∧ ¬ scriptOpen <+: e :=
    suffix_check2 (by decide)
  have hmid : scriptClose <:+: replaceF scriptOpen escOpen l.length l :=
    occurrence_preserved hq1 hq2 hq3 _ _ h
  exact repl_appears (by decide) _ _ le_rfl hmid

/-- `escape` distributes over concatenation. -/
theorem escape_append (a b : List Char) : escape (a ++ b) = escape a ++ escape b := by
  simp [escape]

/-- A sequence of characters that JSON escaping leaves alone is escaped to
itself. -/
theorem escape_eq_self {l : List Char} (h : ∀ c ∈ l, escChar c = [c]) : escape l = l := by
  induction l with
  | nil => rfl
  | cons c cs ih =>
    have hc : escChar c = [c] := h c (List.mem_cons_self ..)
    have ht : escape cs = cs := ih (fun x hx => h x (List.mem_cons_of_mem _ hx))
    simp [escape] at ht ⊢
    rw [hc, ht]
    rfl

/-- An occurrence of a marker made of unescaped characters survives JSON
string escaping. -/
theorem escape_keeps {marker l : List Char} (hm : ∀ c ∈ marker, escChar c = [c])
    (h : marker <:+: l) : marker <:+: escape l := by
  obtain ⟨s, t, hst⟩ := h
  refine ⟨escape s, escape t, ?_⟩
  rw [← escape_eq_self hm, ← escape_append, ← escape_append, hst]

/-- UTF-8 length of a cons cell. -/
theorem utf8Len_cons (c : Char) (l : List Char) :
    utf8Len (c :: l) = c.utf8Size + utf8Len l := by
  simp [utf8Len]

/-- UTF-8 length distributes over concatenation. -/
theorem utf8Len_append (a b : List Char) : utf8Len (a ++ b) = utf8Len a + utf8Len b := by
  simp [utf8Len]

/-- UTF-8 length of a replicated character. -/
theorem utf8Len_replicate (n : Nat) (c : Char) :
    utf8Len (List.replicate n c) = n * c.utf8Size := by
  simp [utf8Len, List.map_replicate, List.sum_replicate, smul_eq_mul]

/-- Inserting a fresh id into the store succeeds. -/
theorem storeIns_fresh {db : Store} {i : String} (h : ∀ r ∈ db, r.1 ≠ i) (c : List Char) :
    storeIns db i c = .ok := by
  have hany : db.any (fun r => r.1 == i) = false := by
    rw [List.any_eq_false]
    intro r hr
    simp [h r hr]
  simp [storeIns, hany]

/-- Read-back after inserting under a fresh id finds the inserted row. -/
theorem storeRb_fresh {db : Store} {i : String} (h : ∀ r ∈ db, r.1 ≠ i) (c : List Char) :
    storeRb db i c = some (i, c) := by
  have hnone : db.find? (fun r => r.1 == i) = none := by
    rw [List.find?_eq_none]
    intro r hr
    simp [h r hr]
  simp [storeRb, List.find?_append, hnone]

mutual

theorem noBanned_sanitize : ∀ v : Json, noBanned (sanitize v) = true
  | .str _ => rfl
  | .num _ => rfl
  | .bool _ => rfl
  | .null => rfl
  | .arr items => by
    simp only [sanitize, noBanned]
    exact noBannedItems_sanitizeItems items
  | .obj fields => by
    simp only [sanitize, noBanned]
    exact noBannedFields_sanitizeFields fields

theorem noBannedItems_sanitizeItems : ∀ l : List Json, noBannedItems (sanitizeItems l) = true
  | [] => rfl
  | v :: rest => by
    simp only [sanitizeItems, noBannedItems, Bool.and_eq_true]
    exact ⟨noBanned_sanitize v, noBannedItems_sanitizeItems rest⟩

theorem noBannedFields_sanitizeFields :
    ∀ l : List (String × Json), noBannedFields (sanitizeFields l) = true
  | [] => rfl
  | (k, v) :: rest => by
    by_cases hk : k = "elementScript"
    · simp only [sanitizeFields, if_pos hk]
      exact noBannedFields_sanitizeFields rest
    · simp only [sanitizeFields, if_neg hk, noBannedFields, Bool.and_eq_true]
      exact ⟨⟨by simp [hk], noBanned_sanitize v⟩, noBannedFields_sanitizeFields rest⟩

end

mutual

theorem sanitize_idempotent : ∀ v : Json, sanitize (sanitize v) = sanitize v
  | .str _ => rfl
  | .num _ => rfl
  | .bool _ => rfl
  | .null => rfl
  | .arr items => by
    simp only [sanitize]
    rw [sanitizeItems_idempotent items]
  | .obj fields => by
    simp only [sanitize]
    rw [sanitizeFields_idempotent fields]

theorem sanitizeItems_idempotent :
    ∀ l : List Json, sanitizeItems (sanitizeItems l) = sanitizeItems l
  | [] => rfl
  | v :: rest => by
    simp only [sanitizeItems]
    rw [sanitize_idempotent v, sanitizeItems_idempotent rest]

theorem sanitizeFields_idempotent :
    ∀ l : List (String × Json), sanitizeFields (sanitizeFields l) = sanitizeFields l
  | [] => rfl
  | (k, v) :: rest => by
    by_cases hk : k = "elementScript"
    · simp only [sanitizeFields, if_pos hk]
      exact sanitizeFields_idempotent rest
    · simp only [sanitizeFields, if_neg hk]
      rw [sanitize_idempotent v, sanitizeFields_idempotent rest]

end

/-- The array branch of `sanitize` is exactly an element-wise map. -/
theorem sanitizeItems_eq_map : ∀ l : List Json, sanitizeItems l = l.map sanitize
  | [] => rfl
  | v :: rest => by
    simp only [sanitizeItems, List.map_cons]
    rw [sanitizeItems_eq_map rest]

/-- The object branch of `sanitize` keeps exactly the pairs whose key is
not `elementScript`, in order, sanitizing each kept value. -/
theorem sanitizeFields_eq :
    ∀ l : List (String × Json),
      sanitizeFields l
        = (l.filter (fun f => f.1 != "elementScript")).map (fun f => (f.1, sanitize f.2))
  | [] => rfl
  | (k, v) :: rest => by
    by_cases hk : k = "elementScript"
    · simp only [sanitizeFields, if_pos hk, List.filter_cons]
      rw [sanitizeFields_eq rest]
      simp [hk]
    · simp only [sanitizeFields, if_neg hk, List.filter_cons]
      rw [sanitizeFields_eq rest]
      simp [hk]

/-- C1: for every JSON value, the recursive sanitizer's result contains no
object key equal to the disallowed name `elementScript` at any nesting
depth: every offending pair is dropped entirely, and sanitization recurses
into all kept values, through arrays and nested objects. -/
theorem c1_sanitize_no_banned_key (v : Json) : noBanned (sanitize v) = true :=
  noBanned_sanitize v

/-- C2: after serialization of the sanitized structure, the stored text
contains no literal `<script>` or `</script>` marker; whenever a marker
occurred in the serialized text its HTML-escaped form occurs in the stored
text instead, including when the markers sit inside a top-level string
content value untouched by the structural key-dropping rule. -/
theorem c2_script_markers_escaped (v : Json) :
    (¬ scriptOpen <:+: contentForDb v) ∧
    (¬ scriptClose <:+: contentForDb v) ∧
    (scriptOpen <:+: stringify (sanitize v) → escOpen <:+: contentForDb v) ∧
    (scriptClose <:+: stringify (sanitize v) → escClose <:+: contentForDb v) ∧
    (∀ s, v = Json.str s → scriptOpen <:+: s.toList → escOpen <:+: contentForDb v) ∧
    (∀ s, v = Json.str s → scriptClose <:+: s.toList → escClose <:+: contentForDb v) := by
  refine ⟨scrub_no_open _, scrub_no_close _,
    fun h => scrub_escOpen h, fun h => scrub_escClose h, ?_, ?_⟩
  · rintro s rfl h
    apply scrub_escOpen
    show scriptOpen <:+: stringify (Json.str s)
    have hesc : scriptOpen <:+: escape s.toList := escape_keeps (by decide) h
    simp only [stringify]
    exact List.infix_cons (hesc.trans (List.prefix_append _ _).isInfix)
  · rintro s rfl h
    apply scrub_escClose
    show scriptClose <:+: stringify (Json.str s)
    have hesc : scriptClose <:+: escape s.toList := escape_keeps (by decide) h
    simp only [stringify]
    exact List.infix_cons (hesc.trans (List.prefix_append _ _).isInfix)

theorem c2_witness :
    escOpen <:+: contentForDb (Json.str "a<script>b</script>c") ∧
    escClose <:+: contentForDb (Json.str "a<script>b</script>c") :=
  ⟨(c2_script_markers_escaped (Json.str "a<script>b</script>c")).2.2.2.2.1 _ rfl (by decide),
   (c2_script_markers_escaped (Json.str "a<script>b</script>c")).2.2.2.2.2 _ rfl (by decide)⟩

/-- C6: the sanitizer maps arrays element-wise (preserving order and
length), keeps exactly the object pairs whose key is not `elementScript`
(in order, recursing into kept values), and passes strings, numbers,
booleans and null through unchanged. -/
theorem c6_sanitize_shape_preservation :
    (∀ items : List Json, sanitize (Json.arr items) = Json.arr (items.map sanitize)) ∧
    (∀ fields : List (String × Json),
      sanitize (Json.obj fields)
        = Json.obj ((fields.filter (fun f => f.1 != "elementScript")).map
            (fun f => (f.1, sanitize f.2)))) ∧
    (∀ s, sanitize (Json.str s) = Json.str s) ∧
    (∀ n, sanitize (Json.num n) = Json.num n) ∧
    (∀ b, sanitize (Json.bool b) = Json.bool b) ∧
    sanitize Json.null = Json.null := by
  refine ⟨fun items => ?_, fun fields => ?_, fun s => rfl, fun n => rfl, fun b => rfl, rfl⟩
  · simp only [sanitize]
    rw [sanitizeItems_eq_map]
  · simp only [sanitize]
    rw [sanitizeFields_eq]

/-- C9: the recursive sanitizer is idempotent. -/
theorem c9_sanitize_idempotent (v : Json) : sanitize (sanitize v) = sanitize v :=
  sanitize_idempotent v

/-- C10: the textual scrub matches only the exact lowercase markers: for a
string content with case-variant markers, the stored text is the plain
serialization, with `<SCRIPT>` and `</SCRIPT>` retained unchanged. -/
theorem c10_scrub_case_sensitive :
    contentForDb (Json.str "<SCRIPT>alert(1)</SCRIPT>")
        = stringify (Json.str "<SCRIPT>alert(1)</SCRIPT>") ∧
    "<SCRIPT>".toList <:+: contentForDb (Json.str "<SCRIPT>alert(1)</SCRIPT>") ∧
    "</SCRIPT>".toList <:+: contentForDb (Json.str "<SCRIPT>alert(1)</SCRIPT>") := by
  decide

/-- A validation failure short-circuits to the 400 response without any
insert call. -/
theorem handle_400 {body : Json} {errs : List String}
    (ins : String → List Char → InsertOutcome)
    (rb : String → List Char → Option (String × List Char))
    (genId : String) (hv : validate body = .error errs) :
    handle ins rb genId body = ⟨⟨400, .errV "Validation failed" errs⟩, 0⟩ := by
  simp only [handle, hv]

/-- The stored text of a replicated-ASCII payload. -/
theorem contentForDb_replicate (n : Nat) :
    contentForDb (Json.str (String.mk (List.replicate n 'a')))
      = '"' :: (List.replicate n 'a' ++ ['"']) := by
  have hesc : escape (List.replicate n 'a') = List.replicate n 'a' :=
    escape_eq_self (fun c hc => by rw [List.eq_of_mem_replicate hc]; rfl)
  have hser : stringify (sanitize (Json.str (String.mk (List.replicate n 'a'))))
      = '"' :: (List.replicate n 'a' ++ ['"']) := by
    show '"' :: escape (List.replicate n 'a') ++ ['"'] = _
    rw [hesc, List.cons_append]
  have hlt : '<' ∉ ('"' :: (List.replicate n 'a' ++ ['"'])) := by
    intro hmem
    rcases List.mem_cons.mp hmem with h | h
    · exact absurd h (by decide)
    · rcases List.mem_append.mp h with h | h
      · have := List.eq_of_mem_replicate h
        exact absurd this (by decide)
      · rcases List.mem_singleton.mp h with h
        exact absurd h (by decide)
  show scrub _ = _
  rw [hser, scrub_eq_self_of_no_lt hlt]

/-- The byte length of the stored text of a replicated-ASCII payload. -/
theorem utf8Len_contentForDb_replicate (n : Nat) :
    utf8Len (contentForDb (Json.str (String.mk (List.replicate n 'a')))) = n + 2 := by
  rw [contentForDb_replicate, utf8Len_cons, utf8Len_append, utf8Len_replicate]
  have h1 : ('"' : Char).utf8Size = 1 := rfl
  have h2 : ('a' : Char).utf8Size = 1 := rfl
  have h3 : utf8Len ['"'] = 1 := rfl
  rw [h1, h2, h3]
  omega

/-- C3: the size gate is evaluated on the byte length of the
sanitized-and-scrubbed serialized content: strictly above 900 KiB the
handler returns 413 with the exact error body and issues no insert call;
at exactly 900 KiB the gate passes and an insert is attempted. -/
theorem c3_size_gate (ins : String → List Char → InsertOutcome)
    (rb : String → List Char → Option (String × List Char))
    (genId : String) (body : Json) (req : ParsedRequest)
    (hv : validate body = .ok req) :
    (utf8Len (contentForDb req.content) > maxBytes →
      handle ins rb genId body
        = ⟨⟨413, .err "Payload too large" "content exceeds size limit"⟩, 0⟩) ∧
    (utf8Len (contentForDb req.content) = maxBytes →
      (handle ins rb genId body).inserts = 1) := by
  constructor
  · intro hgt
    simp only [handle, hv]
    rw [if_pos hgt]
  · intro heq
    simp only [handle, hv]
    rw [if_neg (by omega)]
    cases ins (req.id.getD genId) (contentForDb req.content) with
    | ok =>
      cases rb (req.id.getD genId) (contentForDb req.content) with
      | none => rfl
      | some r => cases r; rfl
    | fail msg =>
      by_cases hu : isUniqueViolation msg
      · simp [hu]
      · simp [hu]

theorem c3_witness :
    handle (fun _ _ => .ok) (fun _ _ => none) "g"
        (Json.obj [("content", Json.str (String.mk (List.replicate 921599 'a')))])
      = ⟨⟨413, .err "Payload too large" "content exceeds size limit"⟩, 0⟩ ∧
    (handle (fun _ _ => .ok) (fun _ _ => none) "g"
        (Json.obj [("content", Json.str (String.mk (List.replicate 921598 'a')))])).inserts
      = 1 := by
  constructor
  · exact (c3_size_gate (fun _ _ => .ok) (fun _ _ => none) "g"
      (Json.obj [("content", Json.str (String.mk (List.replicate 921599 'a')))])
      ⟨none, Json.str (String.mk (List.replicate 921599 'a'))⟩ rfl).1
      (by rw [utf8Len_contentForDb_replicate]; decide)
  · exact (c3_size_gate (fun _ _ => .ok) (fun _ _ => none) "g"
      (Json.obj [("content", Json.str (String.mk (List.replicate 921598 'a')))])
      ⟨none, Json.str (String.mk (List.replicate 921598 'a'))⟩ rfl).2
      (by rw [utf8Len_contentForDb_replicate]; decide)

/-- C4: an insert failure whose message matches the case-insensitive
pattern `unique constraint failed` yields 409 with the duplicate-id body;
any other insert failure yields the generic 500 with the message; in both
cases exactly one insert was attempted (no retry, no id regeneration). -/
theorem c4_insert_failure_classified (ins : String → List Char → InsertOutcome)
    (rb : String → List Char → Option (String × List Char))
    (genId : String) (body : Json) (req : ParsedRequest) (msg : String)
    (hv : validate body = .ok req)
    (hsz : ¬ utf8Len (contentForDb req.content) > maxBytes)
    (hins : ins (req.id.getD genId) (contentForDb req.content) = .fail msg) :
    handle ins rb genId body
      = ⟨if isUniqueViolation msg
          then ⟨409, .err "Duplicate id" "Template with this id already exists"⟩
          else ⟨500, .err "Internal server error" msg⟩, 1⟩ := by
  simp only [handle, hv]
  rw [if_neg hsz, hins]
  by_cases hu : isUniqueViolation msg
  · simp [hu]
  · simp [hu]

theorem c4_witness :
    handle (fun _ _ => .fail "UNIQUE constraint failed: templates_table.id")
        (fun _ _ => none) "g" (Json.obj [("content", Json.str "x")])
      = ⟨⟨409, .err "Duplicate id" "Template with this id already exists"⟩, 1⟩ ∧
    handle (fun _ _ => .fail "database is locked")
        (fun _ _ => none) "g" (Json.obj [("content", Json.str "x")])
      = ⟨⟨500, .err "Internal server error" "database is locked"⟩, 1⟩ := by
  constructor
  · rw [c4_insert_failure_classified (fun _ _ => .fail "UNIQUE constraint failed: templates_table.id")
      (fun _ _ => none) "g" (Json.obj [("content", Json.str "x")]) ⟨none, Json.str "x"⟩
      "UNIQUE constraint failed: templates_table.id" rfl (by decide) rfl]
    decide
  · rw [c4_insert_failure_classified (fun _ _ => .fail "database is locked")
      (fun _ _ => none) "g" (Json.obj [("content", Json.str "x")]) ⟨none, Json.str "x"⟩
      "database is locked" rfl (by decide) rfl]
    decide

/-- C7: request validation. A present `id` that is not in canonical UUID
shape fails with 400 carrying `Validation failed` and a nonempty issue
list; a `content` field that is not a string, object or array — or a
missing `content` — fails the same way; a well-shaped body (absent or
UUID `id`, string/object/array `content`) validates successfully. -/
theorem c7_validation (ins : String → List Char → InsertOutcome)
    (rb : String → List Char → Option (String × List Char))
    (genId : String) (fields : List (String × Json)) :
    (∀ s, lookupField fields "id" = some (Json.str s) → isUuid s = false →
      ∃ errs, errs ≠ [] ∧ validate (Json.obj fields) = .error errs ∧
        handle ins rb genId (Json.obj fields)
          = ⟨⟨400, .errV "Validation failed" errs⟩, 0⟩) ∧
    (∀ c, lookupField fields "content" = some c → isContentOk c = false →
      ∃ errs, errs ≠ [] ∧ validate (Json.obj fields) = .error errs ∧
        handle ins rb genId (Json.obj fields)
          = ⟨⟨400, .errV "Validation failed" errs⟩, 0⟩) ∧
    (lookupField fields "content" = none →
      ∃ errs, errs ≠ [] ∧ validate (Json.obj fields) = .error errs ∧
        handle ins rb genId (Json.obj fields)
          = ⟨⟨400, .errV "Validation failed" errs⟩, 0⟩) ∧
    (∀ oid c, validateId (lookupField fields "id") = .ok oid →
      lookupField fields "content" = some c → isContentOk c = true →
      validate (Json.obj fields) = .ok ⟨oid, c⟩) := by
  refine ⟨?_, ?_, ?_, ?_⟩
  · intro s hid huuid
    have hvid : validateId (lookupField fields "id") = .error ["id: Invalid uuid"] := by
      rw [hid]
      simp [validateId, huuid]
    cases hc : lookupField fields "content" with
    | none =>
      have hval : validate (Json.obj fields)
          = .error (["id: Invalid uuid"] ++ ["content: Required"]) := by
        simp [validate, hvid, hc]
      exact ⟨_, by simp, hval, handle_400 ins rb genId hval⟩
    | some c =>
      by_cases hok : isContentOk c
      · have hval : validate (Json.obj fields) = .error ["id: Invalid uuid"] := by
          simp [validate, hvid, hc, hok]
        exact ⟨_, by simp, hval, handle_400 ins rb genId hval⟩
      · have hval : validate (Json.obj fields)
            = .error (["id: Invalid uuid"] ++ ["content: Invalid input"]) := by
          simp [validate, hvid, hc, hok]
        exact ⟨_, by simp, hval, handle_400 ins rb genId hval⟩
  · intro c hc hok
    cases hvid : validateId (lookupField fields "id") with
    | ok oid =>
      have hval : validate (Json.obj fields) = .error ["content: Invalid input"] := by
        simp [validate, hvid, hc, hok]
      exact ⟨_, by simp, hval, handle_400 ins rb genId hval⟩
    | error es =>
      have hval : validate (Json.obj fields) = .error (es ++ ["content: Invalid input"]) := by
        simp [validate, hvid, hc, hok]
      refine ⟨_, ?_, hval, handle_400 ins rb genId hval⟩
      simp
  · intro hc
    cases hvid : validateId (lookupField fields "id") with
    | ok oid =>
      have hval : validate (Json.obj fields) = .error ["content: Required"] := by
        simp [validate, hvid, hc]
      exact ⟨_, by simp, hval, handle_400 ins rb genId hval⟩
    | error es =>
      have hval : validate (Json.obj fields) = .error (es ++ ["content: Required"]) := by
        simp [validate, hvid, hc]
      refine ⟨_, ?_, hval, handle_400 ins rb genId hval⟩
      simp
  · intro oid c hvid hc hok
    simp [validate, hvid, hc, hok]

theorem c7_witness :
    (handle (fun _ _ => .ok) (fun _ _ => none) "g"
        (Json.obj [("id", Json.str "not-a-uuid"), ("content", Json.str "x")])).response.status
      = 400 ∧
    validate (Json.obj [("id", Json.str "123e4567-e89b-12d3-a456-426614174000"),
        ("content", Json.arr [])])
      = .ok ⟨some "123e4567-e89b-12d3-a456-426614174000", Json.arr []⟩ ∧
    (handle (fun _ _ => .ok) (fun _ _ => none) "g"
        (Json.obj [("content", Json.bool true)])).response.status = 400 ∧
    (handle (fun _ _ => .ok) (fun _ _ => none) "g"
        (Json.obj [("id", Json.str "x")])).response.status = 400 := by
  refine ⟨?_, ?_, ?_, ?_⟩
  · obtain ⟨errs, _, _, hh⟩ := (c7_validation (fun _ _ => .ok) (fun _ _ => none) "g"
      [("id", Json.str "not-a-uuid"), ("content", Json.str "x")]).1 "not-a-uuid" rfl (by decide)
    rw [hh]
  · exact (c7_validation (fun _ _ => .ok) (fun _ _ => none) "g"
      [("id", Json.str "123e4567-e89b-12d3-a456-426614174000"), ("content", Json.arr [])]).2.2.2
      (some "123e4567-e89b-12d3-a456-426614174000") (Json.arr []) rfl rfl rfl
  · obtain ⟨errs, _, _, hh⟩ := (c7_validation (fun _ _ => .ok) (fun _ _ => none) "g"
      [("content", Json.bool true)]).2.1 (Json.bool true) rfl rfl
    rw [hh]
  · obtain ⟨errs, _, _, hh⟩ := (c7_validation (fun _ _ => .ok) (fun _ _ => none) "g"
      [("id", Json.str "x")]).2.2.1 rfl
    rw [hh]

/-- C8: the two handler variants agree on the common domain: whenever the
sanitized-and-scrubbed content is within the ceiling and the insert does
not fail with a uniqueness violation, the size-gated duplicate-aware
handler and the simpler variant produce identical traces (same response,
same single insert of the same id and text); the simpler variant merely
omits the size gate and the duplicate classification. -/
theorem c8_variants_agree (ins : String → List Char → InsertOutcome)
    (rb : String → List Char → Option (String × List Char))
    (genId : String) (body : Json)
    (hsz : ∀ req, validate body = .ok req → ¬ utf8Len (contentForDb req.content) > maxBytes)
    (hins : ∀ req msg, validate body = .ok req →
      ins (req.id.getD genId) (contentForDb req.content) = .fail msg →
      isUniqueViolation msg = false) :
    handle ins rb genId body = handleSimple ins rb genId body := by
  cases hv : validate body with
  | error errs => simp [handle, handleSimple, hv]
  | ok req =>
    simp only [handle, handleSimple, hv]
    rw [if_neg (hsz req hv)]
    cases hi : ins (req.id.getD genId) (contentForDb req.content) with
    | ok => rfl
    | fail msg =>
      have := hins req msg hv hi
      simp [this]

theorem c8_witness :
    handle (fun _ _ => .ok) (fun i c => some (i, c)) "g" (Json.obj [("content", Json.str "x")])
      = handleSimple (fun _ _ => .ok) (fun i c => some (i, c)) "g"
          (Json.obj [("content", Json.str "x")]) := by
  apply c8_variants_agree
  · intro req h
    rw [show validate (Json.obj [("content", Json.str "x")])
      = .ok (⟨none, Json.str "x"⟩ : ParsedRequest) from rfl] at h
    cases h
    decide
  · intro req msg h hfail
    exact absurd hfail (by simp)

/-- C5 (amended): on a successful create whose serialized sanitized
content contains no literal script marker, the stored and returned
content text is exactly the serialization of the sanitized structure, so
parsing it recovers the sanitized structure of the submitted content. -/
theorem c5_amended_round_trip (db : Store) (genId : String) (body : Json)
    (req : ParsedRequest)
    (hv : validate body = .ok req)
    (hfresh : ∀ r ∈ db, r.1 ≠ req.id.getD genId)
    (hsz : ¬ utf8Len (contentForDb req.content) > maxBytes)
    (h1 : ¬ scriptOpen <:+: stringify (sanitize req.content))
    (h2 : ¬ scriptClose <:+: stringify (sanitize req.content)) :
    runCreate db genId body
      = ⟨⟨201, .row (req.id.getD genId) (stringify (sanitize req.content))⟩, 1⟩ := by
  have hcfd : contentForDb req.content = stringify (sanitize req.content) :=
    scrub_eq_self h1 h2
  simp only [runCreate, handle, hv]
  rw [if_neg hsz]
  rw [storeIns_fresh hfresh]
  rw [storeRb_fresh hfresh]
  rw [hcfd]

theorem c5_witness :
    runCreate [] "g" (Json.obj [("content", Json.str "hello")])
      = ⟨⟨201, .row "g" "\"hello\"".toList⟩, 1⟩ := by
  have h := c5_amended_round_trip [] "g" (Json.obj [("content", Json.str "hello")])
    ⟨none, Json.str "hello"⟩ rfl (by simp) (by decide) (by decide) (by decide)
  rw [h]
  decide

/-- C5 (counterexample): a successful create whose content is the string
`<script>` stores and returns the text `"&lt;script&gt;"`, which is not
the serialization of the sanitized structure (the string `<script>`), so
the parsed content differs from the sanitized submitted content. -/
theorem c5_counterexample :
    (runCreate [] "123e4567-e89b-12d3-a456-426614174000"
        (Json.obj [("content", Json.str "<script>")])).response
      = ⟨201, .row "123e4567-e89b-12d3-a456-426614174000" "\"&lt;script&gt;\"".toList⟩ ∧
    "\"&lt;script&gt;\"".toList ≠ stringify (sanitize (Json.str "<script>")) := by
  decide
